import Mathlib

/-!
Shallow embedding of the auto_ocr preprocessing pipeline
(`src/autoocr/api/pipeline.py`, `src/autoocr/api/preprocessor.py` and the
module library under `src/autoocr/api/modules/`), together with theorems
settling the behavioural claims about it.

Modelling conventions:
* Images are pixel grids: a height, a width and a pixel function
  (3-channel BGR for colour images, a single channel for grayscale ones).
* Module metadata dictionaries are association lists from string keys to
  scalar values (`Meta`), looked up first-match as Python dicts with the
  literal keys written in the source.
* Calls into external libraries (OpenCV filters, FFTs, skimage thresholding,
  tesseract, the fastText model) are taken as function parameters of the
  embedded operations: the repository's own control flow and metadata
  construction around those calls is translated faithfully.
* Python floats are modelled as rationals; every threshold comparison in the
  claims (`> 0.7`, `> 2.0`, `>= 30`) is exact at the ratios of small integers
  that arise, so the float/rational gap does not affect any statement.
* Python exceptions are modelled with `Except String`.
-/

namespace AutoOCR

/-- Scalar metadata values stored in the modules' metadata dictionaries:
booleans, numbers (Python ints/floats, as rationals), strings, the
`(x, y, w, h)` bounding-box tuple used by MRZ enhancement, and `None`. -/
inductive MetaVal where
  | b (v : Bool)
  | q (v : ℚ)
  | s (v : String)
  | box (x y w h : Nat)
  | null

/-- A metadata dictionary: association list with string keys, as built by the
dict literals in the source. -/
abbrev Meta := List (String × MetaVal)

/-- First-match lookup in a metadata dictionary (Python `dict.get`). -/
def mlookup : Meta → String → Option MetaVal
  | [], _ => Option.none
  | (k, v) :: rest, key => if k = key then some v else mlookup rest key

/-- Python truthiness (`bool(x)`) of an optional metadata value:
`None` and a missing key are falsy, a string is truthy iff nonempty,
a number is truthy iff nonzero. -/
def truthy : Option MetaVal → Bool
  | Option.none => false
  | some (MetaVal.b v) => v
  | some (MetaVal.q v) => decide (v ≠ 0)
  | some (MetaVal.s v) => !v.data.isEmpty
  | some (MetaVal.box _ _ _ _) => true
  | some MetaVal.null => false

/-- A 3-channel (BGR) image: dimensions plus a pixel function. -/
structure Image where
  h : Nat
  w : Nat
  pix : Nat → Nat → Nat × Nat × Nat

/-- A single-channel (grayscale / binary) image. -/
structure GrayImage where
  h : Nat
  w : Nat
  pix : Nat → Nat → Nat

/-- Embedding of `cv2.cvtColor(..., COLOR_GRAY2BGR)`: replicate the single channel. -/
def gray2bgr (g : GrayImage) : Image :=
  ⟨g.h, g.w, fun y x => (g.pix y x, g.pix y x, g.pix y x)⟩

/-- The white pixel `(255, 255, 255)` painted over masked borders. -/
def whitePix : Nat × Nat × Nat := (255, 255, 255)

/-- Number of grid positions of an `h × w` grid where `p` is false
(`np.count_nonzero(border_mask)` for the inverted interior mask). -/
def countOutside (p : Nat → Nat → Bool) (h w : Nat) : Nat :=
  ((List.range h).map (fun y => ((List.range w).filter (fun x => !p y x)).length)).sum

/-- Number of pixels of a grayscale image satisfying a predicate. -/
def countPix (g : GrayImage) (p : Nat → Bool) : Nat :=
  ((List.range g.h).map (fun y => ((List.range g.w).filter (fun x => p (g.pix y x))).length)).sum

/-- Embedding of `np.mean(cleaned > 0)`: fraction of nonzero pixels. -/
def whiteRatio (g : GrayImage) : ℚ :=
  if g.h * g.w = 0 then 0 else (countPix g (fun v => 0 < v) : ℚ) / (g.h * g.w : ℚ)

/-! Embedding of `EdgeMaskModule.process` (`modules/edge_mask.py`, lines 93-112)

The cv2 calls (`cvtColor`, `threshold`, `findContours`, `drawContours`) are
external; `contoursFound` says whether `findContours` returned any contour
and `interior` is the filled mask of the largest contour that
`drawContours(..., FILLED)` paints (`mask == 255`). The border mask is its
complement, and border pixels are painted white on a copy of the input. -/

def edgeMaskProcess (contoursFound : Bool) (interior : Nat → Nat → Bool)
    (image : Image) (detect_meta : Meta) : Image × Meta :=
  if contoursFound = false then
    (image, [("applied", MetaVal.b false), ("reason", MetaVal.s "no_contours")])
  else
    let output : Image :=
      ⟨image.h, image.w, fun y x => if interior y x then image.pix y x else whitePix⟩
    (output,
     [("applied", MetaVal.b true),
      ("border_pixels_masked", MetaVal.q (countOutside interior image.h image.w : ℚ)),
      ("area_ratio", (mlookup detect_meta "area_ratio").getD MetaVal.null)])

/-! Embedding of `BinarizeModule` (`modules/binarize.py`)

`detect` computes the grayscale standard deviation (a float diagnostic,
abstracted by `contrastOf`) and unconditionally returns `True`.
`process` thresholds via skimage Sauvola with an OpenCV adaptive fallback
(both external, abstracted by `binImgOf` / `sauvolaAvailable`) and returns
the 3-channel replication of the binary result. -/

def binarizeDetect (contrastOf : Image → ℚ) (image : Image) : Bool × Meta :=
  (true, [("pre_binarize_contrast", MetaVal.q (contrastOf image))])

def binarizeProcess (binImgOf : Image → GrayImage) (sauvolaAvailable : Bool)
    (image : Image) (detect_meta : Meta) : Image × Meta :=
  (gray2bgr (binImgOf image),
   [("applied", MetaVal.b true),
    ("method", MetaVal.s (if sauvolaAvailable then "sauvola" else "adaptive_gaussian"))])

/-! Embedding of `TextRefineModule.process` (`modules/text_refine.py`, lines 57-99)

The Sauvola/adaptive binarization is external (`threshold`), as are
`cv2.connectedComponentsWithStats` (`components`, giving the foreground
components `stats[1:]`, each with its pixel area and label-membership mask)
and the closing/opening pass (`morph`). The repository's own logic —
area filtering with `SPECKLE_COMPONENT_MAX_AREA = 30`, the
`removed / (removed + kept) > 0.7` revert guard, skipping morphology when
reverted, and the metadata dict — is translated directly. -/

/-- One foreground connected component of the binarized image:
its pixel area (`stats[label, CC_STAT_AREA]`) and membership mask
(`labels == label`). -/
structure CComponent where
  area : Nat
  mem : Nat → Nat → Bool

/-- The revert guard `(removed + kept) > 0 and removed / (removed + kept) > 0.7`. -/
def speckleReverted (removed kept : Nat) : Bool :=
  decide (0 < removed + kept) &&
    decide ((7 : ℚ) / 10 < (removed : ℚ) / ((removed : ℚ) + (kept : ℚ)))

def textRefineProcess (threshold : Image → GrayImage)
    (components : GrayImage → List CComponent) (morph : GrayImage → GrayImage)
    (sauvolaAvailable : Bool) (image : Image) (detect_meta : Meta) : Image × Meta :=
  let bin_img := threshold image
  let comps := components bin_img
  let cleaned0 : GrayImage :=
    ⟨bin_img.h, bin_img.w, fun y x =>
      if comps.any (fun c => decide (30 ≤ c.area) && c.mem y x) then 255 else 0⟩
  let removed := (comps.filter (fun c => c.area < 30)).length
  let kept := (comps.filter (fun c => 30 ≤ c.area)).length
  let reverted := speckleReverted removed kept
  let cleaned := if reverted then bin_img else morph cleaned0
  (gray2bgr cleaned,
   [("applied", MetaVal.b true),
    ("components_removed", MetaVal.q (removed : ℚ)),
    ("components_kept", MetaVal.q (kept : ℚ)),
    ("pre_small_ratio", (mlookup detect_meta "speckle_ratio").getD MetaVal.null),
    ("white_pixel_ratio", MetaVal.q (whiteRatio cleaned)),
    ("reverted_cleanup", MetaVal.b reverted),
    ("method", MetaVal.s (if sauvolaAvailable then "sauvola_cleanup" else "adaptive_cleanup"))])

/-! Embedding of `GuillocheRemovalModule.process` (`modules/guilloche_removal.py`)

The FFT band-stop filtering, normalization and re-sharpening chain is
external (`filtered`); the returned metadata dict carries the detection's
`pattern_strength` (a `KeyError` in Python when absent, modelled as `null`)
and a fixed description string — and no `applied` key. -/

def guillocheRemovalProcess (filtered : Image → Image)
    (image : Image) (detect_meta : Meta) : Image × Meta :=
  (filtered image,
   [("pattern_strength", (mlookup detect_meta "pattern_strength").getD MetaVal.null),
    ("frequencies_filtered", MetaVal.s "30-120px radius")])

/-! Embedding of `MRZEnhancementModule.process` (`modules/mrz_enhancement.py`, lines 101-152)

Grayscale conversion and the per-region baseline removal + sharpening +
Otsu binarization are external (`grayOf`, `enhanceRegion`). The bounding box
comes from the detection metadata, falling back to the bottom 12% strip
(`int(height * 0.12)`); the enhanced binary region replaces the box in a
copy of the input, and the metadata has no `applied` key. -/

def mrzEnhancementProcess (grayOf : Image → GrayImage)
    (enhanceRegion : GrayImage → Nat → Nat → Nat → Nat → GrayImage)
    (image : Image) (detect_meta : Meta) : Image × Meta :=
  let gray := grayOf image
  let bbox : Nat × Nat × Nat × Nat :=
    match mlookup detect_meta "mrz_bbox" with
    | some (MetaVal.box bx bby bw bh) => (bx, bby, bw, bh)
    | _ => (0, gray.h - gray.h * 12 / 100, gray.w, gray.h * 12 / 100)
  let x := bbox.1
  let y := bbox.2.1
  let w := bbox.2.2.1
  let hh := bbox.2.2.2
  let mrz_binary := enhanceRegion gray x y w hh
  let result : Image :=
    ⟨image.h, image.w, fun yy xx =>
      if y ≤ yy ∧ yy < y + hh ∧ x ≤ xx ∧ xx < x + w then
        (mrz_binary.pix (yy - y) (xx - x), mrz_binary.pix (yy - y) (xx - x),
         mrz_binary.pix (yy - y) (xx - x))
      else image.pix yy xx⟩
  (result,
   [("mrz_bbox", MetaVal.box x y w hh),
    ("method", MetaVal.s "targeted_binarization"),
    ("baseline_removed", MetaVal.b true)])

/-! Embedding of `SharpenModule.process` (`modules/sharpen.py`, lines 35-47)

Unsharp masking and detail refinement are external (`enhanceEdges`,
`refineDetails`); the metadata dict records fixed flags and the detection's
Laplacian variance — again without an `applied` key. -/

def sharpenProcess (enhanceEdges refineDetails : Image → Image)
    (image : Image) (detect_meta : Meta) : Image × Meta :=
  (refineDetails (enhanceEdges image),
   [("edge_enhanced", MetaVal.b true),
    ("details_refined", MetaVal.b true),
    ("laplacian_variance_input", (mlookup detect_meta "laplacian_variance").getD (MetaVal.q 0)),
    ("method", MetaVal.s "Unsharp_Mask + High_Pass")])

/-! Embedding of `LanguageModule` (`modules/language.py`)

`detect` checks the fastText model and the tesseract binary, OCRs a
(downscaled, thresholded — all external, folded into `ocr`) sample,
normalizes whitespace with `' '.join(text.split())`, requires at least 20
characters, predicts with the model (`predict`, external), strips the
`__label__` prefix and reports the language. `process` is a no-op on the
image and reports `applied = bool(detect_meta.get("language"))`. -/

/-- Python `str.split()`: split on whitespace runs, dropping empty pieces
(accumulator holds the current word reversed). -/
def pyWordsAux : List Char → List Char → List (List Char)
  | [], cur => if cur = [] then [] else [cur.reverse]
  | c :: rest, cur =>
    if c.isWhitespace then
      if cur = [] then pyWordsAux rest []
      else cur.reverse :: pyWordsAux rest []
    else pyWordsAux rest (c :: cur)

/-- Python `' '.join(words)`. -/
def joinWords : List (List Char) → List Char
  | [] => []
  | [w] => w
  | w :: ws => w ++ ' ' :: joinWords ws

/-- Python `' '.join(text.split())`. -/
def pyJoinWords (cs : List Char) : List Char :=
  joinWords (pyWordsAux cs [])

/-- Python `str.replace`: scan left to right, replacing non-overlapping
occurrences of a nonempty pattern (fuel-driven; fuel starts at the string
length, which bounds the number of scan steps). -/
def listReplaceAux (pat rep : List Char) : Nat → List Char → List Char
  | _, [] => []
  | 0, s => s
  | Nat.succ n, c :: rest =>
    if !pat.isEmpty && pat.isPrefixOf (c :: rest) then
      rep ++ listReplaceAux pat rep n ((c :: rest).drop pat.length)
    else
      c :: listReplaceAux pat rep n rest

def listReplace (pat rep s : List Char) : List Char :=
  listReplaceAux pat rep s.length s

/-- Python `round(p, 4)` on a rational. -/
def round4 (p : ℚ) : ℚ := ((round (p * 10000) : ℤ) : ℚ) / 10000

def languageDetect (modelLoaded tesseractOk : Bool)
    (ocr : Image → Except String (List Char))
    (predict : List Char → List (List Char) × List ℚ)
    (image : Image) : Bool × Meta :=
  if modelLoaded = false then
    (false, [("reason", MetaVal.s "model_unavailable")])
  else if tesseractOk = false then
    (false, [("reason", MetaVal.s "tesseract_missing")])
  else
    match ocr image with
    | Except.error e => (false, [("reason", MetaVal.s "ocr_failed"), ("error", MetaVal.s e)])
    | Except.ok text =>
      let cleaned := pyJoinWords text
      if cleaned.length < 20 then
        (false, [("reason", MetaVal.s "insufficient_text"),
                 ("length", MetaVal.q (cleaned.length : ℚ))])
      else
        let sample := cleaned.take 1000
        match predict sample with
        | ([], _) => (false, [("reason", MetaVal.s "no_prediction")])
        | (label :: _, probs) =>
          let lang := listReplace "__label__".toList [] label
          let prob := probs.headD 0
          (true, [("language", MetaVal.s (String.mk lang)),
                  ("probability", MetaVal.q (round4 prob)),
                  ("text_sample_length", MetaVal.q (sample.length : ℚ)),
                  ("model_loaded", MetaVal.b true)])

def languageProcess (image : Image) (detect_meta : Meta) : Image × Meta :=
  (image, [("applied", MetaVal.b (truthy (mlookup detect_meta "language")))])

/-! Embedding of `PerspectiveModule._order_points` (`modules/perspective.py`, lines 81-91)

`rect[0] = pts[argmin(x + y)]` (tl), `rect[2] = pts[argmax(x + y)]` (br),
and with `diff = np.diff(pts, axis=1) = y - x`:
`rect[1] = pts[argmin(y - x)]` (tr), `rect[3] = pts[argmax(y - x)]` (bl).
`np.argmin`/`np.argmax` take the first occurrence of the extremum. -/

/-- First occurrence of the minimum of `f` over `p :: rest`. -/
def argminBy (f : Int × Int → Int) (p : Int × Int) (rest : List (Int × Int)) : Int × Int :=
  rest.foldl (fun best q => if f q < f best then q else best) p

/-- First occurrence of the maximum of `f` over `p :: rest`. -/
def argmaxBy (f : Int × Int → Int) (p : Int × Int) (rest : List (Int × Int)) : Int × Int :=
  rest.foldl (fun best q => if f best < f q then q else best) p

/-- The ordered corners `(tl, tr, br, bl)`; `none` on an empty list
(numpy `argmin` raises there). -/
def orderPoints : List (Int × Int) → Option ((Int × Int) × (Int × Int) × (Int × Int) × (Int × Int))
  | [] => Option.none
  | p :: rest =>
    some (argminBy (fun q => q.1 + q.2) p rest,
          argminBy (fun q => q.2 - q.1) p rest,
          argmaxBy (fun q => q.1 + q.2) p rest,
          argmaxBy (fun q => q.2 - q.1) p rest)

/-! Embedding of `OCROptimizedPreprocessor._build_ocr_pipeline` (`preprocessor.py`, lines 273-305)

The five configuration flags the build branches on, and the module list it
assembles, identified by the modules' `name` attributes. -/

structure OCROptimizedConfig where
  remove_guilloche : Bool
  remove_watermarks : Bool
  flatten_holograms : Bool
  mrz_priority : Bool
  allow_binarization : Bool

def buildOcrPipeline (cfg : OCROptimizedConfig) : List String :=
  (if cfg.remove_guilloche then ["guilloche_removal"] else []) ++
  (if cfg.remove_watermarks then ["watermark_removal"] else []) ++
  (if cfg.flatten_holograms then ["hologram_removal"] else []) ++
  ["edge_mask", "orientation", "perspective", "deskew", "denoise", "enhance"] ++
  (if cfg.mrz_priority then ["mrz_enhancement"] else []) ++
  ["text_refine"] ++
  (if cfg.allow_binarization then ["binarize"] else [])

/-- The default module order of `Pipeline.__init__` (`pipeline.py`, lines 36-54). -/
def defaultPipelineModuleNames : List String :=
  ["edge_mask", "orientation", "perspective", "language", "deskew", "de_raster",
   "denoise", "background_clean", "enhance", "text_refine", "sharpen", "smooth",
   "binarize", "color_correction", "text_segmentation", "artifact_removal"]

/-! Embedding of `Pipeline.run_page` / `Pipeline.run_document` (`pipeline.py`, lines 57-108)

A module is a name plus `detect` and `process`; either may raise
(`Except.error`), which the orchestrator does not catch. `run_page` walks
the module list over the working image, calls `process` only when `detect`
returned true, snapshots the working image right before the `binarize`
module processes, and appends one step record per module. `run_document`
loops over the pages appending `(page_index, result)`; an exception from a
page propagates. Wall-clock timings are not modelled. -/

structure PageModule where
  name : String
  detect : Image → Except String (Bool × Meta)
  process : Image → Meta → Except String (Image × Meta)

structure StepRecord where
  module : String
  detected : Bool
  applied : Bool
  detect_meta : Meta
  process_meta : Option Meta

structure PageResult where
  original : Image
  final : Image
  pre_binarize : Option Image
  steps : List StepRecord

def runPageAux : List PageModule → Image → Option Image → List StepRecord →
    Except String (Image × Option Image × List StepRecord)
  | [], work_img, snap, steps => Except.ok (work_img, snap, steps)
  | m :: rest, work_img, snap, steps =>
    match m.detect work_img with
    | Except.error e => Except.error e
    | Except.ok (detected, detect_meta) =>
      if detected then
        let snap2 := if m.name = "binarize" then some work_img else snap
        match m.process work_img detect_meta with
        | Except.error e => Except.error e
        | Except.ok (work_img2, process_meta) =>
          runPageAux rest work_img2 snap2
            (steps ++ [⟨m.name, detected, true, detect_meta, some process_meta⟩])
      else
        runPageAux rest work_img snap
          (steps ++ [⟨m.name, detected, false, detect_meta, Option.none⟩])

def runPage (modules : List PageModule) (image : Image) : Except String PageResult :=
  match runPageAux modules image Option.none [] with
  | Except.error e => Except.error e
  | Except.ok (final, snap, steps) => Except.ok ⟨image, final, snap, steps⟩

def runDocumentAux (modules : List PageModule) :
    List Image → Nat → List (Nat × PageResult) → Except String (List (Nat × PageResult))
  | [], _, results => Except.ok results
  | page :: rest, idx, results =>
    match runPage modules page with
    | Except.error e => Except.error e
    | Except.ok r => runDocumentAux modules rest (idx + 1) (results ++ [(idx, r)])

def runDocument (modules : List PageModule) (pages : List Image) :
    Except String (List (Nat × PageResult)) :=
  runDocumentAux modules pages 0 []

/-! Embedding of `DocumentPreprocessor.process_file` / `process_batch`
(`preprocessor.py`, lines 98-167)

`process_file` loads the image (cv2.imread, external: `load`), raises when
it cannot be loaded, and runs the page pipeline; file writing is I/O and
dropped. `process_batch` loops over the files, catching any exception from
a file and recording `success = False` with the error, then continues. -/

structure BatchEntry where
  file : String
  success : Bool
  error : Option String
  steps : List StepRecord

def processFile (load : String → Option Image) (modules : List PageModule)
    (input_path : String) : Except String (List StepRecord) :=
  match load input_path with
  | Option.none => Except.error ("Could not load image: " ++ input_path)
  | some img =>
    match runPage modules img with
    | Except.error e => Except.error e
    | Except.ok r => Except.ok r.steps

/-- The batch entry recorded for one file: the success record from
`process_file`, or the `try/except` failure record. -/
def batchEntryOf (load : String → Option Image) (modules : List PageModule)
    (file : String) : BatchEntry :=
  match processFile load modules file with
  | Except.ok steps => ⟨file, true, Option.none, steps⟩
  | Except.error e => ⟨file, false, some e, []⟩

def processBatch (load : String → Option Image) (modules : List PageModule)
    (files : List String) : List BatchEntry :=
  files.foldl (fun results file => results ++ [batchEntryOf load modules file]) []

/-! Embedding of `SecurityDocumentPreprocessor.process_file` (`preprocessor.py`, lines 209-250)

The security detector's analysis is external; only its reported skew angle
drives the control flow modelled here. When `abs(skew_angle) > 2.0` the
pipeline runs; otherwise the loaded image is preserved and the step list is
empty. -/

structure SecurityFileResult where
  final : Image
  steps : List StepRecord

def securityProcessFile (modules : List PageModule) (skew_angle : ℚ)
    (img : Image) : Except String SecurityFileResult :=
  if 2 < |skew_angle| then
    match runPage modules img with
    | Except.error e => Except.error e
    | Except.ok r => Except.ok ⟨r.final, r.steps⟩
  else
    Except.ok ⟨img, []⟩

/-! Concrete fixtures used by witnesses and counterexamples. -/

/-- A 2×2 all-white page. -/
def imgW0 : Image := ⟨2, 2, fun _ _ => (255, 255, 255)⟩

/-- A 1×1 page marking the failing page of a document. -/
def imgFailA : Image := ⟨1, 1, fun _ _ => (0, 0, 0)⟩

/-- A module whose `detect` raises exactly on 1×1 pages. -/
def failModule : PageModule :=
  ⟨"boom", fun img => if img.h = 1 then Except.error "boom" else Except.ok (false, []),
   fun img m => Except.ok (img, m)⟩

/-- A module that always detects and leaves the image unchanged. -/
def okModule (nm : String) : PageModule :=
  ⟨nm, fun _ => Except.ok (true, []), fun img _ => Except.ok (img, [])⟩

/-- A 1×1 all-white binary image. -/
def binW : GrayImage := ⟨1, 1, fun _ _ => 255⟩

/-- Component statistics with 3 of 4 components below the speckle
area threshold (75% would be discarded). -/
def compsW : List CComponent :=
  [⟨1, fun _ _ => false⟩, ⟨1, fun _ _ => false⟩, ⟨1, fun _ _ => false⟩,
   ⟨50, fun _ _ => true⟩]

/-- An OCR sample long enough to pass the 20-character minimum. -/
def langTextW : List Char := "the quick brown fox jumps over".toList

def langOcrW : Image → Except String (List Char) := fun _ => Except.ok langTextW

/-- A fastText stub predicting English with probability 0.9. -/
def langPredictW : List Char → List (List Char) × List ℚ :=
  fun _ => (["__label__en".toList], [(9 : ℚ) / 10])

/-- A skewed quadrilateral (as detected corner points `(x, y)`). -/
def quadW : List (Int × Int) := [(2, 0), (12, 4), (10, 14), (0, 10)]

/-- The page result of running `[okModule "a", okModule "binarize"]` on `imgW0`. -/
def pageResultW : PageResult :=
  ⟨imgW0, imgW0, some imgW0,
   [⟨"a", true, true, [], some []⟩, ⟨"binarize", true, true, [], some []⟩]⟩

/-! Theorems settling the claims. -/

/-- C9: for every input image (and whatever contrast value the external
grayscale/std computation produces), `BinarizeModule.detect` returns
`should_correct = true`; the contrast score is recorded as diagnostic
metadata only. -/
theorem binarize_detect_total (contrastOf : Image → ℚ) (image : Image) :
    (binarizeDetect contrastOf image).1 = true := rfl

/-- C4: building the OCR-optimized profile with all five flags true yields
the module list starting guilloche → watermark → hologram removal, ending
with binarization, and containing MRZ enhancement immediately before text
refinement. -/
theorem ocr_profile_module_order :
    buildOcrPipeline ⟨true, true, true, true, true⟩ =
      ["guilloche_removal", "watermark_removal", "hologram_removal", "edge_mask",
       "orientation", "perspective", "deskew", "denoise", "enhance",
       "mrz_enhancement", "text_refine", "binarize"] ∧
    (buildOcrPipeline ⟨true, true, true, true, true⟩).take 3 =
      ["guilloche_removal", "watermark_removal", "hologram_removal"] ∧
    (buildOcrPipeline ⟨true, true, true, true, true⟩).getLast? = some "binarize" ∧
    (buildOcrPipeline ⟨true, true, true, true, true⟩)[9]? = some "mrz_enhancement" ∧
    (buildOcrPipeline ⟨true, true, true, true, true⟩)[10]? = some "text_refine" :=
  ⟨rfl, rfl, rfl, rfl, rfl⟩

/-- C8: the border-mask correction never changes the image dimensions, and
every pixel inside the detected interior contour (the filled mask of the
largest contour) keeps its input value — only pixels outside it are painted
over. -/
theorem edge_mask_interior_unchanged (contoursFound : Bool)
    (interior : Nat → Nat → Bool) (image : Image) (detect_meta : Meta)
    (y x : Nat) (hin : interior y x = true) :
    (edgeMaskProcess contoursFound interior image detect_meta).1.h = image.h ∧
    (edgeMaskProcess contoursFound interior image detect_meta).1.w = image.w ∧
    (edgeMaskProcess contoursFound interior image detect_meta).1.pix y x = image.pix y x := by
  cases contoursFound <;> simp [edgeMaskProcess, hin]

/-- C8 witness: a concrete interior mask and pixel. -/
theorem edge_mask_interior_unchanged_witness :
    ((fun _ _ => true) 0 0 = true) ∧
    ((edgeMaskProcess true (fun _ _ => true) imgW0 []).1.h = imgW0.h ∧
     (edgeMaskProcess true (fun _ _ => true) imgW0 []).1.w = imgW0.w ∧
     (edgeMaskProcess true (fun _ _ => true) imgW0 []).1.pix 0 0 = imgW0.pix 0 0) :=
  ⟨rfl, edge_mask_interior_unchanged true (fun _ _ => true) imgW0 [] 0 0 rfl⟩

/-- C10: when the security detector reports a skew angle of magnitude at
most 2.0 degrees, `SecurityDocumentPreprocessor.process_file` bypasses the
pipeline: the output image is the loaded input and the step list is empty. -/
theorem security_skew_bypass (modules : List PageModule) (skew_angle : ℚ)
    (img : Image) (h : |skew_angle| ≤ 2) :
    securityProcessFile modules skew_angle img = Except.ok ⟨img, []⟩ := by
  unfold securityProcessFile
  rw [if_neg (not_lt.mpr h)]

/-- C10 witness: skew angle 1 degree. -/
theorem security_skew_bypass_witness :
    |(1 : ℚ)| ≤ 2 ∧
    securityProcessFile [] 1 imgW0 = Except.ok ⟨imgW0, []⟩ :=
  ⟨by norm_num, security_skew_bypass [] 1 imgW0 (by norm_num)⟩

/-- The step list a successful `run_page` traversal accumulates: one record
per module, in order, after whatever was already accumulated. -/
theorem runPageAux_steps (ms : List PageModule) :
    ∀ (img : Image) (snap : Option Image) (acc : List StepRecord)
      (out : Image × Option Image × List StepRecord),
      runPageAux ms img snap acc = Except.ok out →
      out.2.2.map (fun st => st.module) =
        acc.map (fun st => st.module) ++ ms.map (fun m => m.name) := by
  induction ms with
  | nil =>
    intro img snap acc out h
    simp only [runPageAux] at h
    cases h
    simp
  | cons m rest ih =>
    intro img snap acc out h
    simp only [runPageAux] at h
    cases hd : m.detect img with
    | error e => rw [hd] at h; cases h
    | ok pr =>
      obtain ⟨detected, dmeta⟩ := pr
      rw [hd] at h
      cases detected with
      | false =>
        simp only [Bool.false_eq_true, if_false] at h
        have := ih _ _ _ _ h
        simpa using this
      | true =>
        simp only [if_true] at h
        cases hp : m.process img dmeta with
        | error e => rw [hp] at h; cases h
        | ok pr2 =>
          obtain ⟨img2, pmeta⟩ := pr2
          rw [hp] at h
          have := ih _ _ _ _ h
          simpa using this

/-- C7: every successful page run returns exactly one step record per
configured module, in the pipeline's module order. -/
theorem run_page_step_log_complete (modules : List PageModule) (image : Image)
    (r : PageResult) (h : runPage modules image = Except.ok r) :
    r.steps.length = modules.length ∧
    r.steps.map (fun st => st.module) = modules.map (fun m => m.name) := by
  unfold runPage at h
  cases haux : runPageAux modules image Option.none [] with
  | error e => rw [haux] at h; cases h
  | ok out =>
    obtain ⟨fimg, snap, steps⟩ := out
    rw [haux] at h
    cases h
    have hm := runPageAux_steps modules image Option.none [] _ haux
    simp only [List.map_nil, List.nil_append] at hm
    refine ⟨?_, hm⟩
    have := congrArg List.length hm
    simpa using this

/-- C7 witness: a concrete two-module pipeline. -/
theorem run_page_step_log_complete_witness :
    pageResultW.steps.length = [okModule "a", okModule "binarize"].length ∧
    pageResultW.steps.map (fun st => st.module) =
      [okModule "a", okModule "binarize"].map (fun m => m.name) :=
  run_page_step_log_complete [okModule "a", okModule "binarize"] imgW0 pageResultW rfl

/-- C1 counterexample: a module failure on the first page of a two-page
document makes `Pipeline.run_document` return the error — no result is
recorded for the failed page and none is returned for the remaining page —
even though the second page on its own runs fine. -/
theorem run_document_aborts_on_page_failure :
    runDocument [failModule] [imgFailA, imgW0] = Except.error "boom" ∧
    runPage [failModule] imgW0 =
      Except.ok ⟨imgW0, imgW0, Option.none, [⟨"boom", false, false, [], Option.none⟩]⟩ :=
  ⟨rfl, rfl⟩

/-- Folding the batch loop from any accumulator appends one entry per file. -/
theorem processBatch_eq_map (load : String → Option Image) (modules : List PageModule)
    (files : List String) :
    ∀ acc : List BatchEntry,
      files.foldl (fun results file => results ++ [batchEntryOf load modules file]) acc =
        acc ++ files.map (batchEntryOf load modules) := by
  induction files with
  | nil => intro acc; simp
  | cons f rest ih =>
    intro acc
    simp only [List.foldl_cons, List.map_cons]
    rw [ih]
    simp

/-- C1 (amended): failure containment lives at the batch level, not in
`run_document` — a file whose processing raises is recorded by
`process_batch` as `success = False` with the error, and every other file,
before and after it, is still processed and contributes its own entry. -/
theorem process_batch_isolates_failures (load : String → Option Image)
    (modules : List PageModule) (pre : List String) (f : String)
    (post : List String) (e : String)
    (hfail : processFile load modules f = Except.error e) :
    processBatch load modules (pre ++ f :: post) =
      processBatch load modules pre ++
        ⟨f, false, some e, []⟩ :: processBatch load modules post ∧
    (processBatch load modules (pre ++ f :: post)).length =
      pre.length + 1 + post.length := by
  have hmap : ∀ fs : List String,
      processBatch load modules fs = fs.map (batchEntryOf load modules) := by
    intro fs
    simpa using processBatch_eq_map load modules fs []
  have hentry : batchEntryOf load modules f = ⟨f, false, some e, []⟩ := by
    simp [batchEntryOf, hfail]
  constructor
  · simp [hmap, hentry]
  · simp [hmap]
    omega

/-- C1 witness: the middle file of a three-file batch fails to load. -/
theorem process_batch_isolates_failures_witness :
    processFile (fun _ => Option.none) [] "b" =
      Except.error ("Could not load image: " ++ "b") ∧
    (processBatch (fun _ => Option.none) [] (["a"] ++ "b" :: ["c"]) =
      processBatch (fun _ => Option.none) [] ["a"] ++
        ⟨"b", false, some ("Could not load image: " ++ "b"), []⟩ ::
          processBatch (fun _ => Option.none) [] ["c"] ∧
     (processBatch (fun _ => Option.none) [] (["a"] ++ "b" :: ["c"])).length =
       ["a"].length + 1 + ["c"].length) :=
  ⟨rfl, process_batch_isolates_failures (fun _ => Option.none) [] ["a"] "b" ["c"]
    ("Could not load image: " ++ "b") rfl⟩

/-- C2 counterexample: on a page where the language probe identifies a
language (`detected = true` with language "en"), the module's process
metadata reports `applied = true`, not `applied = false` as claimed. -/
theorem language_applied_true_cex :
    (languageDetect true true langOcrW langPredictW imgW0).1 = true ∧
    mlookup (languageProcess imgW0
        (languageDetect true true langOcrW langPredictW imgW0).2).2 "applied" =
      some (MetaVal.b true) :=
  ⟨rfl, rfl⟩

/-- C2 (amended): the language module never changes the image, but when its
`detect` reports `detected = true` the step metadata's `applied` flag equals
the truthiness of the recorded language string — true whenever a (nonempty)
language code was identified; only a label that strips to the empty string
could make it false. -/
theorem language_process_reports_applied (modelLoaded tesseractOk : Bool)
    (ocr : Image → Except String (List Char))
    (predict : List Char → List (List Char) × List ℚ)
    (image pimg : Image)
    (hdet : (languageDetect modelLoaded tesseractOk ocr predict image).1 = true) :
    (languageProcess pimg (languageDetect modelLoaded tesseractOk ocr predict image).2).1 =
      pimg ∧
    mlookup (languageProcess pimg
        (languageDetect modelLoaded tesseractOk ocr predict image).2).2 "applied" =
      some (MetaVal.b
        (truthy (mlookup (languageDetect modelLoaded tesseractOk ocr predict image).2
          "language"))) ∧
    (truthy (mlookup (languageDetect modelLoaded tesseractOk ocr predict image).2
        "language") = false →
      mlookup (languageDetect modelLoaded tesseractOk ocr predict image).2 "language" =
        some (MetaVal.s "")) := by
  refine ⟨rfl, rfl, ?_⟩
  cases modelLoaded with
  | false => simp [languageDetect] at hdet
  | true =>
    cases tesseractOk with
    | false => simp [languageDetect] at hdet
    | true =>
      cases hocr : ocr image with
      | error e => simp [languageDetect, hocr] at hdet
      | ok text =>
        by_cases hlen : (pyJoinWords text).length < 20
        · simp [languageDetect, hocr, hlen] at hdet
        · cases hpred : predict ((pyJoinWords text).take 1000) with
          | mk labels probs =>
            cases labels with
            | nil => simp [languageDetect, hocr, hlen, hpred] at hdet
            | cons label rest =>
              simp only [languageDetect, hocr, hlen, hpred, Bool.true_eq_false,
                if_false, if_neg hlen]
              intro htr
              simp only [mlookup, if_pos rfl, truthy, Option.some.injEq] at htr ⊢
              cases hl : listReplace "__label__".toList [] label with
              | nil => rfl
              | cons c cs => rw [hl] at htr; simp at htr

/-- C2 witness: the concrete probe identifying English. -/
theorem language_process_reports_applied_witness :
    (languageProcess imgW0
        (languageDetect true true langOcrW langPredictW imgW0).2).1 = imgW0 ∧
    mlookup (languageProcess imgW0
        (languageDetect true true langOcrW langPredictW imgW0).2).2 "applied" =
      some (MetaVal.b
        (truthy (mlookup (languageDetect true true langOcrW langPredictW imgW0).2
          "language"))) ∧
    (truthy (mlookup (languageDetect true true langOcrW langPredictW imgW0).2
        "language") = false →
      mlookup (languageDetect true true langOcrW langPredictW imgW0).2 "language" =
        some (MetaVal.s "")) :=
  language_process_reports_applied true true langOcrW langPredictW imgW0 imgW0 rfl

/-- Lemma: `argminBy` returns a member of the list achieving the minimum of `f`
(numpy `argmin`: first occurrence of the minimum). -/
theorem argminBy_spec (f : Int × Int → Int) (rest : List (Int × Int)) :
    ∀ p : Int × Int,
      argminBy f p rest ∈ p :: rest ∧ ∀ q ∈ p :: rest, f (argminBy f p rest) ≤ f q := by
  induction rest with
  | nil =>
    intro p
    refine ⟨by simp [argminBy], ?_⟩
    intro q hq
    simp only [List.mem_singleton] at hq
    subst hq
    simp [argminBy]
  | cons r rest ih =>
    intro p
    have hstep : argminBy f p (r :: rest) = argminBy f (if f r < f p then r else p) rest := rfl
    obtain ⟨ihm, ihle⟩ := ih (if f r < f p then r else p)
    constructor
    · rw [hstep]
      rcases List.mem_cons.mp ihm with h | h
      · rw [h]
        split
        · exact List.mem_cons_of_mem _ (List.mem_cons_self _ _)
        · exact List.mem_cons_self _ _
      · exact List.mem_cons_of_mem _ (List.mem_cons_of_mem _ h)
    · intro q hq
      rw [hstep]
      have hhead : f (argminBy f (if f r < f p then r else p) rest) ≤
          f (if f r < f p then r else p) :=
        ihle _ (List.mem_cons_self _ _)
      have hp : f (if f r < f p then r else p) ≤ f p := by
        split
        · omega
        · exact le_refl _
      have hr : f (if f r < f p then r else p) ≤ f r := by
        split
        · exact le_refl _
        · omega
      rcases List.mem_cons.mp hq with h | h
      · subst h; omega
      · rcases List.mem_cons.mp h with h2 | h2
        · subst h2; omega
        · exact ihle q (List.mem_cons_of_mem _ h2)

/-- Lemma: `argmaxBy` returns a member of the list achieving the maximum of `f`
(numpy `argmax`: first occurrence of the maximum). -/
theorem argmaxBy_spec (f : Int × Int → Int) (rest : List (Int × Int)) :
    ∀ p : Int × Int,
      argmaxBy f p rest ∈ p :: rest ∧ ∀ q ∈ p :: rest, f q ≤ f (argmaxBy f p rest) := by
  induction rest with
  | nil =>
    intro p
    refine ⟨by simp [argmaxBy], ?_⟩
    intro q hq
    simp only [List.mem_singleton] at hq
    subst hq
    simp [argmaxBy]
  | cons r rest ih =>
    intro p
    have hstep : argmaxBy f p (r :: rest) = argmaxBy f (if f p < f r then r else p) rest := rfl
    obtain ⟨ihm, ihle⟩ := ih (if f p < f r then r else p)
    constructor
    · rw [hstep]
      rcases List.mem_cons.mp ihm with h | h
      · rw [h]
        split
        · exact List.mem_cons_of_mem _ (List.mem_cons_self _ _)
        · exact List.mem_cons_self _ _
      · exact List.mem_cons_of_mem _ (List.mem_cons_of_mem _ h)
    · intro q hq
      rw [hstep]
      have hhead : f (if f p < f r then r else p) ≤
          f (argmaxBy f (if f p < f r then r else p) rest) :=
        ihle _ (List.mem_cons_self _ _)
      have hp : f p ≤ f (if f p < f r then r else p) := by
        split
        · omega
        · exact le_refl _
      have hr : f r ≤ f (if f p < f r then r else p) := by
        split
        · exact le_refl _
        · omega
      rcases List.mem_cons.mp hq with h | h
      · subst h; omega
      · rcases List.mem_cons.mp h with h2 | h2
        · subst h2; omega
        · exact ihle q (List.mem_cons_of_mem _ h2)

/-- C3 counterexample: on the detected quadrilateral
`[(2,0), (12,4), (10,14), (0,10)]` the code assigns top-right `(12, 4)`,
yet the list contains `(0, 10)` whose `x − y = −10` is strictly smaller
than top-right's `x − y = 8` — so the corner the code places top-right is
not the point of minimal `x − y` the claim describes. -/
theorem order_points_tr_not_min_diff_cex :
    orderPoints quadW = some ((2, 0), (12, 4), (10, 14), (0, 10)) ∧
    (0, 10) ∈ quadW ∧ ((0 : Int) - 10 < 12 - 4) := by
  refine ⟨rfl, by decide, by decide⟩

/-- C3 (amended): `_order_points` orders the corners as top-left = minimal
`x + y`, bottom-right = maximal `x + y`, top-right = minimal `y − x`
(equivalently maximal `x − y`), bottom-left = maximal `y − x` (minimal
`x − y`) — the sum heuristics as claimed, the difference heuristics with
the roles of top-right and bottom-left given by `y − x`, not `x − y`. -/
theorem order_points_extremal (pts : List (Int × Int)) (tl tr br bl : Int × Int)
    (h : orderPoints pts = some (tl, tr, br, bl)) :
    (tl ∈ pts ∧ ∀ q ∈ pts, tl.1 + tl.2 ≤ q.1 + q.2) ∧
    (br ∈ pts ∧ ∀ q ∈ pts, q.1 + q.2 ≤ br.1 + br.2) ∧
    (tr ∈ pts ∧ ∀ q ∈ pts, tr.2 - tr.1 ≤ q.2 - q.1) ∧
    (bl ∈ pts ∧ ∀ q ∈ pts, q.2 - q.1 ≤ bl.2 - bl.1) := by
  cases pts with
  | nil => simp [orderPoints] at h
  | cons p rest =>
    simp only [orderPoints, Option.some.injEq, Prod.mk.injEq] at h
    obtain ⟨h1, h2, h3, h4⟩ := h
    subst h1
    subst h2
    subst h3
    subst h4
    exact ⟨argminBy_spec _ rest p, argmaxBy_spec _ rest p,
           argminBy_spec _ rest p, argmaxBy_spec _ rest p⟩

/-- C3 witness: the ordering on the concrete quadrilateral `quadW`. -/
theorem order_points_extremal_witness :
    (((2 : Int), (0 : Int)) ∈ quadW ∧ ∀ q ∈ quadW, (2 : Int) + 0 ≤ q.1 + q.2) ∧
    (((10 : Int), (14 : Int)) ∈ quadW ∧ ∀ q ∈ quadW, q.1 + q.2 ≤ (10 : Int) + 14) ∧
    (((12 : Int), (4 : Int)) ∈ quadW ∧ ∀ q ∈ quadW, (4 : Int) - 12 ≤ q.2 - q.1) ∧
    (((0 : Int), (10 : Int)) ∈ quadW ∧ ∀ q ∈ quadW, q.2 - q.1 ≤ (10 : Int) - 0) :=
  order_points_extremal quadW (2, 0) (12, 4) (10, 14) (0, 10) rfl

/-- The small-component / large-component split of the label loop is a
partition of the component list. -/
theorem length_filter_small_add_large (l : List CComponent) :
    (l.filter (fun c => c.area < 30)).length +
      (l.filter (fun c => 30 ≤ c.area)).length = l.length := by
  induction l with
  | nil => simp
  | cons c rest ih =>
    by_cases hc : c.area < 30
    · have hc2 : ¬ 30 ≤ c.area := by omega
      simp [List.filter_cons, hc, hc2]
      omega
    · have hc2 : 30 ≤ c.area := by omega
      simp [List.filter_cons, hc, hc2]
      omega

/-- The revert guard fires whenever the component count is positive and the
removed fraction exceeds 0.7. -/
theorem speckleReverted_of_ratio (removed kept : Nat) (h0 : 0 < removed + kept)
    (h : (7 : ℚ) / 10 < (removed : ℚ) / ((removed : ℚ) + (kept : ℚ))) :
    speckleReverted removed kept = true := by
  simp only [speckleReverted, Bool.and_eq_true, decide_eq_true_eq]
  exact ⟨h0, h⟩

/-- C5 counterexample: on an input whose components trip the revert guard
(3 of 4 components below the speckle area threshold, a 75% > 70% removal
rate), text-refinement's metadata does flag the revert — but under the key
`reverted_cleanup`; there is no `reverted` key at all. -/
theorem text_refine_no_reverted_key_cex :
    mlookup (textRefineProcess (fun _ => binW) (fun _ => compsW) id true imgW0 []).2
      "reverted_cleanup" = some (MetaVal.b true) ∧
    mlookup (textRefineProcess (fun _ => binW) (fun _ => compsW) id true imgW0 []).2
      "reverted" = Option.none := by
  have hrev : speckleReverted 3 1 = true :=
    speckleReverted_of_ratio 3 1 (by norm_num) (by norm_num)
  have hlk : mlookup (textRefineProcess (fun _ => binW) (fun _ => compsW) id true imgW0 []).2
      "reverted_cleanup" = some (MetaVal.b (speckleReverted 3 1)) := rfl
  exact ⟨by rw [hlk, hrev], rfl⟩

/-- C5 (amended): whenever more than 70% of the connected components of the
binarized image would be discarded by the speckle-area filter, the cleanup
is reverted: the output image is the (3-channel replication of the)
unfiltered binarization, the morphological pass is skipped, and the result
metadata flags `reverted_cleanup = true`. -/
theorem text_refine_revert_safety (threshold : Image → GrayImage)
    (components : GrayImage → List CComponent) (morph : GrayImage → GrayImage)
    (sauvolaAvailable : Bool) (image : Image) (detect_meta : Meta)
    (hne : components (threshold image) ≠ [])
    (hratio : (7 : ℚ) / 10 <
      (((components (threshold image)).filter (fun c => c.area < 30)).length : ℚ) /
        ((components (threshold image)).length : ℚ)) :
    (textRefineProcess threshold components morph sauvolaAvailable image detect_meta).1 =
      gray2bgr (threshold image) ∧
    mlookup (textRefineProcess threshold components morph sauvolaAvailable image
        detect_meta).2 "reverted_cleanup" = some (MetaVal.b true) := by
  have hpart := length_filter_small_add_large (components (threshold image))
  have hlen : 0 < (components (threshold image)).length := List.length_pos.mpr hne
  have h0 : 0 < ((components (threshold image)).filter (fun c => c.area < 30)).length +
      ((components (threshold image)).filter (fun c => 30 ≤ c.area)).length := by omega
  have hq : (((components (threshold image)).filter (fun c => c.area < 30)).length : ℚ) +
      (((components (threshold image)).filter (fun c => 30 ≤ c.area)).length : ℚ) =
      ((components (threshold image)).length : ℚ) := by
    exact_mod_cast hpart
  have hrev : speckleReverted
      ((components (threshold image)).filter (fun c => c.area < 30)).length
      ((components (threshold image)).filter (fun c => 30 ≤ c.area)).length = true := by
    refine speckleReverted_of_ratio _ _ h0 ?_
    rw [hq]
    exact hratio
  constructor
  · show gray2bgr (if speckleReverted
        ((components (threshold image)).filter (fun c => c.area < 30)).length
        ((components (threshold image)).filter (fun c => 30 ≤ c.area)).length
      then threshold image
      else morph ⟨(threshold image).h, (threshold image).w, fun y x =>
        if (components (threshold image)).any
            (fun c => decide (30 ≤ c.area) && c.mem y x) then 255 else 0⟩) =
      gray2bgr (threshold image)
    rw [hrev]
    simp
  · show mlookup (textRefineProcess threshold components morph sauvolaAvailable image
        detect_meta).2 "reverted_cleanup" = some (MetaVal.b true)
    have hlk : mlookup (textRefineProcess threshold components morph sauvolaAvailable image
        detect_meta).2 "reverted_cleanup" = some (MetaVal.b (speckleReverted
          ((components (threshold image)).filter (fun c => c.area < 30)).length
          ((components (threshold image)).filter (fun c => 30 ≤ c.area)).length)) := rfl
    rw [hlk, hrev]

/-- C5 witness: concrete component statistics with a 75% removal rate. -/
theorem text_refine_revert_safety_witness :
    compsW ≠ [] ∧
    ((7 : ℚ) / 10 <
      ((compsW.filter (fun c => c.area < 30)).length : ℚ) / (compsW.length : ℚ)) ∧
    ((textRefineProcess (fun _ => binW) (fun _ => compsW) id true imgW0 []).1 =
       gray2bgr binW ∧
     mlookup (textRefineProcess (fun _ => binW) (fun _ => compsW) id true imgW0 []).2
       "reverted_cleanup" = some (MetaVal.b true)) :=
  ⟨List.cons_ne_nil _ _, by norm_num [compsW],
   text_refine_revert_safety (fun _ => binW) (fun _ => compsW) id true imgW0 []
     (List.cons_ne_nil _ _) (by norm_num [compsW])⟩

/-- C6 counterexample: the sharpen module sits in the default pipeline, yet
the metadata its process step returns has no `applied` key at all. -/
theorem process_meta_applied_missing_cex :
    "sharpen" ∈ defaultPipelineModuleNames ∧
    mlookup (sharpenProcess id id imgW0 [("laplacian_variance", MetaVal.q 100)]).2
      "applied" = Option.none :=
  ⟨by decide, rfl⟩

/-- C6 (amended): `applied: true` is not a universal convention of process
metadata. The binarization and text-refinement modules always include
`applied = true`, but the guilloche-removal, MRZ-enhancement and sharpen
modules return metadata with no `applied` key whatsoever. -/
theorem process_meta_applied_by_module
    (binImgOf : Image → GrayImage) (sauvolaAvailable : Bool)
    (threshold : Image → GrayImage) (components : GrayImage → List CComponent)
    (morph : GrayImage → GrayImage) (filtered : Image → Image)
    (grayOf : Image → GrayImage)
    (enhanceRegion : GrayImage → Nat → Nat → Nat → Nat → GrayImage)
    (enhanceEdges refineDetails : Image → Image)
    (image : Image) (detect_meta : Meta) :
    mlookup (binarizeProcess binImgOf sauvolaAvailable image detect_meta).2 "applied" =
      some (MetaVal.b true) ∧
    mlookup (textRefineProcess threshold components morph sauvolaAvailable image
        detect_meta).2 "applied" = some (MetaVal.b true) ∧
    mlookup (guillocheRemovalProcess filtered image detect_meta).2 "applied" =
      Option.none ∧
    mlookup (mrzEnhancementProcess grayOf enhanceRegion image detect_meta).2 "applied" =
      Option.none ∧
    mlookup (sharpenProcess enhanceEdges refineDetails image detect_meta).2 "applied" =
      Option.none :=
  ⟨rfl, rfl, rfl, rfl, rfl⟩

end AutoOCR
